import Mathlib

/-!
Verification of the student-teacher matching engine
(`src/matcher.py`, `src/utils.py`) against its specification.

Shallow embedding conventions:
* pandas DataFrames of students / teachers become Lean lists of structures,
  kept in input (row) order, with fields named after the columns;
* the mutable `teacher_slots` dict-of-dicts becomes a total function
  `Usage : Int → String → Nat`.  The Python dict is initialised to `0` for
  every (teacher id, available slot) pair and is only ever read at such
  pairs when teacher ids are pairwise distinct (every read below happens at
  a slot drawn from the scanned teacher row's `available_time_slots`), so
  the total function initialised to `0` everywhere coincides with it there;
* the scikit-learn classifier cannot be embedded; `match_with_feedback_loop`
  is parametrised by an abstract `predict : List String → Int`.  This
  over-approximates the in-function RandomForest: a real run trains it on
  baseline labels drawn from the same teacher table used for the fallback
  lookup, and sklearn predict only returns trained classes, so real
  predictions always name existing rows (the error branch of
  `fallbackStep` models the unguarded `.iloc[0]` for an out-of-table id,
  which no real execution reaches).  The abstraction is sound for the
  universally quantified claims proved below.  Furthermore, the
  pandas `sort_values("weight", ascending=False)` call (whose default
  `kind=quicksort` is documented as unstable) is parametrised by an
  abstract `sortCands`, constrained in theorems exactly by what pandas
  guarantees: the output is a permutation of the input, sorted by weight
  in descending order;
* Python exceptions become `Except String` results.
-/

/-- A row of the students DataFrame (columns `student_id`, `subjects`,
`preferred_time_slots`), as produced by the data loader. -/
structure Student where
  student_id : Int
  subjects : List String
  preferred_time_slots : List String
deriving DecidableEq, Repr

/-- A row of the teachers DataFrame (columns `teacher_id`, `subjects`,
`available_time_slots`, `max_students_per_slot`). -/
structure Teacher where
  teacher_id : Int
  subjects : List String
  available_time_slots : List String
  max_students_per_slot : Nat
deriving DecidableEq, Repr

/-- A row of the feedback DataFrame (columns used by the matcher:
`teacher_id`, `rating`; ratings are the integers 1–5 produced by
`generate_feedback`). -/
structure FeedbackRecord where
  student_id : Int
  teacher_id : Int
  time_slot : String
  rating : Int
deriving DecidableEq, Repr

/-- A schedule entry as built by `assign_student_to_slot` in
`src/matcher.py`. -/
structure Assignment where
  student_id : Int
  teacher_id : Int
  time_slot : String
  lesson_type : String
deriving DecidableEq, Repr

/-- The `teacher_slots` occupancy table: teacher id → slot → count. -/
def Usage : Type := Int → String → Nat

/-- `teacher_slots[tid][slot] += 1`. -/
def bump (u : Usage) (tid : Int) (slot : String) : Usage :=
  fun t s => if t = tid then (if s = slot then u t s + 1 else u t s) else u t s

/-! ## Overlap utilities (`src/utils.py`)

`subject_overlap` and `available_time_overlap` are dynamically checked in
Python: they first test that both arguments are lists and that every element
is a string, raising `TypeError` otherwise.  `PyVal` models the dynamic
values these functions can receive. -/

/-- A dynamic Python value, as far as the overlap utilities inspect it. -/
inductive PyVal where
  | str (s : String)
  | int (n : Int)
  | list (xs : List PyVal)

/-- `isinstance(v, str)`. -/
def PyVal.isStr : PyVal → Bool
  | .str _ => true
  | _ => false

/-- Wrap a Lean string list as the corresponding Python list value. -/
def toPyList (l : List String) : PyVal :=
  .list (l.map .str)

/-- Project a dynamically checked string element. -/
def PyVal.asStr : PyVal → Option String
  | .str s => some s
  | _ => none

/-- `bool(set(a) & set(b))` on already-validated string lists: the core of
`subject_overlap`. -/
def subject_overlap (a b : List String) : Bool :=
  a.any (fun s => b.contains s)

/-- `sorted(set(a) & set(b))` on already-validated string lists: the core of
`available_time_overlap`.  Python's `sorted` on strings is lexicographic by
code point, which is the order of `String.le`. -/
def sortedStrInter (a b : List String) : List String :=
  List.insertionSort (· ≤ ·) ((a.filter (fun s => b.contains s)).dedup)

/-- `available_time_overlap(student_times, teacher_times)` from
`src/utils.py`, with its dynamic type validation: raises `TypeError`
(modelled as `.error`) unless both arguments are lists of strings, and
otherwise returns the sorted intersection. -/
def available_time_overlap (student_times teacher_times : PyVal) :
    Except String (List String) :=
  match student_times, teacher_times with
  | .list xs, .list ys =>
    if (xs ++ ys).all PyVal.isStr then
      .ok (sortedStrInter (xs.filterMap PyVal.asStr) (ys.filterMap PyVal.asStr))
    else
      .error "All elements in time lists must be strings"
  | _, _ => .error "Both student_times and teacher_times must be lists"

/-! ## The baseline matcher (`match_students_to_teachers`)

The Python function also fail-fasts on missing DataFrame columns; the typed
embedding makes that check vacuous, so it is omitted.  Inside the loops the
calls to `available_time_overlap` always receive the validated list fields
of the structures, so they are embedded as the pure core `sortedStrInter`. -/

/-- `assign_student_to_slot` from `src/matcher.py` (the logging side effect
is dropped). -/
def assign_student_to_slot (student_id teacher_id : Int) (slot : String)
    (current_count : Nat) : Assignment :=
  { student_id := student_id
    teacher_id := teacher_id
    time_slot := slot
    lesson_type := if current_count = 0 then "1:1" else "group" }

/-- The inner `for _, teacher in teachers.iterrows()` loop of
`match_students_to_teachers` for one student: scan teachers in order; on
subject overlap scan the sorted common slots for the first one with free
capacity; commit there and stop, otherwise keep scanning teachers. -/
def tryTeachers (st : Student) : List Teacher → Usage → Option (Assignment × Usage)
  | [], _ => none
  | t :: ts, u =>
    if subject_overlap st.subjects t.subjects then
      match (sortedStrInter st.preferred_time_slots t.available_time_slots).find?
          (fun s => u t.teacher_id s < t.max_students_per_slot) with
      | some slot =>
        some (assign_student_to_slot st.student_id t.teacher_id slot (u t.teacher_id slot),
          bump u t.teacher_id slot)
      | none => tryTeachers st ts u
    else tryTeachers st ts u

/-- The outer `for _, student in students.iterrows()` loop of
`match_students_to_teachers`: each student appends at most one schedule
entry and threads the shared occupancy table. -/
def matchLoop (teachers : List Teacher) : List Student → Usage → List Assignment
  | [], _ => []
  | st :: rest, u =>
    match tryTeachers st teachers u with
    | some (a, u2) => a :: matchLoop teachers rest u2
    | none => matchLoop teachers rest u

/-- `match_students_to_teachers` from `src/matcher.py`: the occupancy table
starts at zero for every pair. -/
def match_students_to_teachers (students : List Student) (teachers : List Teacher) :
    List Assignment :=
  matchLoop teachers students (fun _ _ => 0)

/-! ## The feedback-loop matcher (`match_with_feedback_loop`)

Ingredients that cannot be embedded concretely are parameters:
* `predict` is `clf.predict(mlb.transform([subjects]))[0]`, the trained
  RandomForest's single predicted teacher id;
* `sortCands` is `candidate_teachers.sort_values("weight", ascending=False)`
  after `candidate_teachers["weight"] = ...map(teacher_weights)`; pandas
  promises only a permutation of the rows that is sorted by the weight
  column in descending order (the default `kind=quicksort` is unstable,
  so the order among equal weights is not specified).

The loop additionally tags each committed entry with the path (greedy or
fallback) that produced it; `match_with_feedback_loop` erases the tags, so
the tag is a pure ghost annotation for the proofs. -/

/-- The `teacher_weights` table: `defaultdict(lambda: 1.0)` overridden, for
every teacher id present in the feedback, by that teacher's mean rating
divided by 5 (`feedback_df.groupby("teacher_id")["rating"].mean()`).
Arithmetic is modelled exactly over `ℚ`. -/
def teacher_weights (feedback : List FeedbackRecord) (tid : Int) : ℚ :=
  let rs := (feedback.filter (fun f => f.teacher_id == tid)).map (fun f => (f.rating : ℚ))
  if rs.length = 0 then 1 else (rs.sum / (rs.length : ℚ)) / 5

/-- How `sortCands` abstracts the pandas sort. -/
def SortFn : Type := (Int → ℚ) → List Teacher → List Teacher

/-- The candidate scan order for one student: filter the teachers by
subject overlap (`teachers.apply(... subject_overlap ...)`), then sort by
weight descending. -/
def candidate_order (sortCands : SortFn) (w : Int → ℚ) (st : Student)
    (teachers : List Teacher) : List Teacher :=
  sortCands w (teachers.filter (fun t => subject_overlap st.subjects t.subjects))

/-- The greedy scan of `match_with_feedback_loop` over the already-filtered,
already-sorted candidate rows (no subject check is repeated here; the
candidates were filtered before sorting). -/
def tryCandidates (st : Student) : List Teacher → Usage → Option (Assignment × Usage)
  | [], _ => none
  | t :: ts, u =>
    match (sortedStrInter st.preferred_time_slots t.available_time_slots).find?
        (fun s => u t.teacher_id s < t.max_students_per_slot) with
    | some slot =>
      some (assign_student_to_slot st.student_id t.teacher_id slot (u t.teacher_id slot),
        bump u t.teacher_id slot)
    | none => tryCandidates st ts u

/-- The `if not assigned:` fallback block: predict a teacher id, look it up
with `teachers[teachers["teacher_id"] == predicted].iloc[0]` — which raises
`IndexError` when no row matches — and scan that teacher's sorted common
slots for free capacity.  No subject-overlap check is performed here. -/
def fallbackStep (predict : List String → Int) (teachers : List Teacher)
    (st : Student) (u : Usage) : Except String (Option (Assignment × Usage)) :=
  let ptid := predict st.subjects
  match teachers.find? (fun t => t.teacher_id == ptid) with
  | none => .error "IndexError: single positional indexer is out-of-bounds"
  | some trow =>
    match (sortedStrInter st.preferred_time_slots trow.available_time_slots).find?
        (fun s => u ptid s < trow.max_students_per_slot) with
    | some slot =>
      .ok (some (assign_student_to_slot st.student_id ptid slot (u ptid slot),
        bump u ptid slot))
    | none => .ok none

/-- Which path of `match_with_feedback_loop` committed an assignment. -/
inductive PathTag where
  | greedy
  | fallback
deriving DecidableEq, Repr

/-- The main `for _, student in students.iterrows()` loop of
`match_with_feedback_loop`, with ghost path tags on the committed entries. -/
def feedbackLoop (predict : List String → Int) (sortCands : SortFn) (w : Int → ℚ)
    (teachers : List Teacher) :
    List Student → Usage → Except String (List (Assignment × PathTag))
  | [], _ => .ok []
  | st :: rest, u =>
    match tryCandidates st (candidate_order sortCands w st teachers) u with
    | some (a, u2) =>
      (feedbackLoop predict sortCands w teachers rest u2).map (fun l => (a, .greedy) :: l)
    | none =>
      match fallbackStep predict teachers st u with
      | .error e => .error e
      | .ok (some (a, u2)) =>
        (feedbackLoop predict sortCands w teachers rest u2).map (fun l => (a, .fallback) :: l)
      | .ok none => feedbackLoop predict sortCands w teachers rest u

/-- `match_with_feedback_loop` from `src/matcher.py`.  It first computes the
weights, then runs the baseline matcher to build the training frame; when
the baseline schedule is empty, `train_teacher_recommender` raises a
`KeyError` (`pd.DataFrame([])` has no `student_id`/`teacher_id` columns),
which the model surfaces as `.error`.  Otherwise the per-student loop runs
on a fresh zero occupancy table. -/
def match_with_feedback_loop (predict : List String → Int) (sortCands : SortFn)
    (students : List Student) (teachers : List Teacher)
    (feedback : List FeedbackRecord) : Except String (List Assignment) :=
  let w := teacher_weights feedback
  let initial := match_students_to_teachers students teachers
  if initial.isEmpty then
    .error "KeyError: columns student_id and teacher_id not in index"
  else
    (feedbackLoop predict sortCands w teachers students (fun _ _ => 0)).map
      (fun l => l.map Prod.fst)

/-- The identity candidate sort, used for concrete runs. -/
def sortById : SortFn := fun _ l => l

/-! ## Helper lemmas about the overlap core -/

theorem mem_sortedStrInter {a b : List String} {s : String} :
    s ∈ sortedStrInter a b ↔ s ∈ a ∧ s ∈ b := by
  unfold sortedStrInter
  rw [(List.perm_insertionSort _ _).mem_iff]
  simp [List.mem_dedup, List.mem_filter]

theorem sortedStrInter_sorted_le (a b : List String) :
    (sortedStrInter a b).Sorted (· ≤ ·) :=
  List.sorted_insertionSort _ _

theorem sortedStrInter_nodup (a b : List String) :
    (sortedStrInter a b).Nodup :=
  ((List.perm_insertionSort _ _).nodup_iff).mpr (List.nodup_dedup _)

theorem sortedStrInter_sorted_lt (a b : List String) :
    (sortedStrInter a b).Sorted (· < ·) :=
  (sortedStrInter_sorted_le a b).lt_of_le (sortedStrInter_nodup a b)

theorem subject_overlap_iff {a b : List String} :
    subject_overlap a b = true ↔ ∃ s, s ∈ a ∧ s ∈ b := by
  simp [subject_overlap]

/-! ## Helper lemmas about the per-student steps -/

/-- Number of schedule entries committed to one (teacher, slot) pair. -/
def pairCount (sched : List Assignment) (tid : Int) (slot : String) : Nat :=
  sched.countP (fun a => a.teacher_id == tid && a.time_slot == slot)

/-- Inversion of a successful baseline scan: the commit comes from some
scanned teacher with subject overlap, at a common slot with free capacity,
and the occupancy table is bumped exactly there. -/
theorem tryTeachers_eq_some {st : Student} {ts : List Teacher} {u : Usage}
    {a : Assignment} {u2 : Usage} (h : tryTeachers st ts u = some (a, u2)) :
    ∃ t ∈ ts, ∃ slot,
      subject_overlap st.subjects t.subjects = true ∧
      slot ∈ sortedStrInter st.preferred_time_slots t.available_time_slots ∧
      u t.teacher_id slot < t.max_students_per_slot ∧
      a = assign_student_to_slot st.student_id t.teacher_id slot (u t.teacher_id slot) ∧
      u2 = bump u t.teacher_id slot := by
  induction ts with
  | nil => exact absurd h (by simp [tryTeachers])
  | cons t ts ih =>
    rw [tryTeachers] at h
    split at h
    · rename_i hov
      split at h
      · rename_i slot hfind
        injection h with h
        injection h with h1 h2
        refine ⟨t, List.mem_cons_self t ts, slot, hov, List.mem_of_find?_eq_some hfind,
          ?_, h1.symm, h2.symm⟩
        simpa using List.find?_some hfind
      · obtain ⟨t', ht', rest⟩ := ih h
        exact ⟨t', List.mem_cons_of_mem _ ht', rest⟩
    · obtain ⟨t', ht', rest⟩ := ih h
      exact ⟨t', List.mem_cons_of_mem _ ht', rest⟩

/-- Inversion of a successful candidate scan in the feedback loop (the
subject filter has already been applied upstream, so no overlap fact). -/
theorem tryCandidates_eq_some {st : Student} {ts : List Teacher} {u : Usage}
    {a : Assignment} {u2 : Usage} (h : tryCandidates st ts u = some (a, u2)) :
    ∃ t ∈ ts, ∃ slot,
      slot ∈ sortedStrInter st.preferred_time_slots t.available_time_slots ∧
      u t.teacher_id slot < t.max_students_per_slot ∧
      a = assign_student_to_slot st.student_id t.teacher_id slot (u t.teacher_id slot) ∧
      u2 = bump u t.teacher_id slot := by
  induction ts with
  | nil => exact absurd h (by simp [tryCandidates])
  | cons t ts ih =>
    rw [tryCandidates] at h
    split at h
    · rename_i slot hfind
      injection h with h
      injection h with h1 h2
      refine ⟨t, List.mem_cons_self t ts, slot, List.mem_of_find?_eq_some hfind,
        ?_, h1.symm, h2.symm⟩
      simpa using List.find?_some hfind
    · obtain ⟨t', ht', rest⟩ := ih h
      exact ⟨t', List.mem_cons_of_mem _ ht', rest⟩

/-- Inversion of a successful fallback commit: the predicted teacher is the
first matching row of the teacher table, the slot is a free common slot. -/
theorem fallbackStep_eq_ok_some {predict : List String → Int}
    {teachers : List Teacher} {st : Student} {u : Usage}
    {a : Assignment} {u2 : Usage}
    (h : fallbackStep predict teachers st u = .ok (some (a, u2))) :
    ∃ t ∈ teachers, ∃ slot,
      t.teacher_id = predict st.subjects ∧
      slot ∈ sortedStrInter st.preferred_time_slots t.available_time_slots ∧
      u t.teacher_id slot < t.max_students_per_slot ∧
      a = assign_student_to_slot st.student_id t.teacher_id slot (u t.teacher_id slot) ∧
      u2 = bump u t.teacher_id slot := by
  rw [fallbackStep] at h
  split at h
  · exact absurd h (by simp)
  · rename_i trow hfindrow
    have htmem : trow ∈ teachers := List.mem_of_find?_eq_some hfindrow
    have htid : trow.teacher_id = predict st.subjects := by
      have := List.find?_some hfindrow
      simpa using this
    split at h
    · rename_i slot hfind
      injection h with h
      injection h with h
      injection h with h1 h2
      refine ⟨trow, htmem, slot, htid, List.mem_of_find?_eq_some hfind, ?_, ?_, ?_⟩
      · have := List.find?_some hfind
        rw [htid]
        simpa using this
      · rw [h1.symm, htid]
      · rw [h2.symm, htid]
    · exact absurd h (by simp)

theorem bump_apply (u : Usage) (x : Int) (y : String) (t : Int) (s : String) :
    bump u x y t s = if t = x ∧ s = y then u t s + 1 else u t s := by
  by_cases h1 : t = x
  · by_cases h2 : s = y
    · simp [bump, h1, h2]
    · simp [bump, h1, h2]
  · simp [bump, h1]

/-- Occupancy invariant of the baseline loop: once any entry is committed to
a (teacher, slot) pair, the starting occupancy plus the number of committed
entries stays below the (unique) capacity of that teacher. -/
theorem matchLoop_pairCount (teachers : List Teacher) (students : List Student)
    (u : Usage) (tid : Int) (slot : String) (cap : Nat)
    (hcap : ∀ t ∈ teachers, t.teacher_id = tid → t.max_students_per_slot = cap) :
    pairCount (matchLoop teachers students u) tid slot = 0 ∨
      u tid slot + pairCount (matchLoop teachers students u) tid slot ≤ cap := by
  induction students generalizing u with
  | nil => left; rfl
  | cons st rest ih =>
    cases htry : tryTeachers st teachers u with
    | none =>
      simp only [matchLoop, htry]
      exact ih u
    | some p =>
      obtain ⟨a, u2⟩ := p
      simp only [matchLoop, htry]
      obtain ⟨t, htmem, slot', hov, hslot, hlt, ha, hu2⟩ := tryTeachers_eq_some htry
      by_cases hm : (a.teacher_id == tid && a.time_slot == slot) = true
      · have hm' : a.teacher_id = tid ∧ a.time_slot = slot := by
          simpa using hm
        have htid : t.teacher_id = tid := by
          rw [← hm'.1, ha]; rfl
        have hslot' : slot' = slot := by
          rw [← hm'.2, ha]; rfl
        have hcapt : t.max_students_per_slot = cap := hcap t htmem htid
        have hu2v : u2 tid slot = u tid slot + 1 := by
          rw [hu2, bump_apply, htid, hslot', if_pos ⟨rfl, rfl⟩]
        have hltc : u tid slot < cap := by
          rw [← hcapt, ← htid, ← hslot']; exact hlt
        right
        have hcount : pairCount (a :: matchLoop teachers rest u2) tid slot =
            pairCount (matchLoop teachers rest u2) tid slot + 1 := by
          simp [pairCount, List.countP_cons, hm]
        rw [hcount]
        rcases ih u2 with h0 | hle
        · rw [h0]; omega
        · rw [hu2v] at hle; omega
      · have hcount : pairCount (a :: matchLoop teachers rest u2) tid slot =
            pairCount (matchLoop teachers rest u2) tid slot := by
          simp [pairCount, List.countP_cons, hm]
        rw [hcount]
        have hne : ¬(tid = t.teacher_id ∧ slot = slot') := by
          intro ⟨e1, e2⟩
          apply hm
          have : a.teacher_id = tid ∧ a.time_slot = slot := by
            constructor
            · rw [ha, e1]; rfl
            · rw [ha, e2]; rfl
          simpa using this
        have hu2v : u2 tid slot = u tid slot := by
          rw [hu2, bump_apply, if_neg hne]
        have := ih u2
        rw [hu2v] at this
        exact this

/-- One committed entry preserves the occupancy bound, whatever path
committed it. -/
theorem pairCount_commit_aux {u u2 : Usage} {a : Assignment} {t : Teacher}
    {sid : Int} {slot' : String} {tid : Int} {slot : String} {cap : Nat}
    {rest : List Assignment}
    (hcapt : t.teacher_id = tid → t.max_students_per_slot = cap)
    (hlt : u t.teacher_id slot' < t.max_students_per_slot)
    (ha : a = assign_student_to_slot sid t.teacher_id slot' (u t.teacher_id slot'))
    (hu2 : u2 = bump u t.teacher_id slot')
    (ih : pairCount rest tid slot = 0 ∨ u2 tid slot + pairCount rest tid slot ≤ cap) :
    pairCount (a :: rest) tid slot = 0 ∨
      u tid slot + pairCount (a :: rest) tid slot ≤ cap := by
  by_cases hm : (a.teacher_id == tid && a.time_slot == slot) = true
  · have hm' : a.teacher_id = tid ∧ a.time_slot = slot := by simpa using hm
    have htid : t.teacher_id = tid := by rw [← hm'.1, ha]; rfl
    have hslot' : slot' = slot := by rw [← hm'.2, ha]; rfl
    have hu2v : u2 tid slot = u tid slot + 1 := by
      rw [hu2, bump_apply, htid, hslot', if_pos ⟨rfl, rfl⟩]
    have hltc : u tid slot < cap := by
      rw [← hcapt htid, ← htid, ← hslot']; exact hlt
    right
    have hcount : pairCount (a :: rest) tid slot = pairCount rest tid slot + 1 := by
      simp [pairCount, List.countP_cons, hm]
    rw [hcount]
    rcases ih with h0 | hle
    · rw [h0]; omega
    · rw [hu2v] at hle; omega
  · have hcount : pairCount (a :: rest) tid slot = pairCount rest tid slot := by
      simp [pairCount, List.countP_cons, hm]
    rw [hcount]
    have hne : ¬(tid = t.teacher_id ∧ slot = slot') := by
      intro ⟨e1, e2⟩
      apply hm
      have : a.teacher_id = tid ∧ a.time_slot = slot := by
        constructor
        · rw [ha, e1]; rfl
        · rw [ha, e2]; rfl
      simpa using this
    have hu2v : u2 tid slot = u tid slot := by
      rw [hu2, bump_apply, if_neg hne]
    rw [hu2v] at ih
    exact ih

/-- Occupancy invariant of the feedback loop (both paths thread one shared
table). -/
theorem feedbackLoop_pairCount (predict : List String → Int) (sortCands : SortFn)
    (w : Int → ℚ) (teachers : List Teacher) (students : List Student)
    (hSub : ∀ (w' : Int → ℚ) (l : List Teacher), ∀ x ∈ sortCands w' l, x ∈ l)
    (tid : Int) (slot : String) (cap : Nat)
    (hcap : ∀ t ∈ teachers, t.teacher_id = tid → t.max_students_per_slot = cap) :
    ∀ (u : Usage) (sched : List (Assignment × PathTag)),
      feedbackLoop predict sortCands w teachers students u = .ok sched →
      pairCount (sched.map Prod.fst) tid slot = 0 ∨
        u tid slot + pairCount (sched.map Prod.fst) tid slot ≤ cap := by
  induction students with
  | nil =>
    intro u sched h
    simp only [feedbackLoop] at h
    injection h with h
    subst h
    left; rfl
  | cons st rest ih =>
    intro u sched h
    rw [feedbackLoop] at h
    split at h
    · rename_i a u2 htry
      cases hrec : feedbackLoop predict sortCands w teachers rest u2 with
      | error e => rw [hrec] at h; exact absurd h (by simp [Except.map])
      | ok tl =>
        rw [hrec] at h
        simp only [Except.map] at h
        injection h with h
        subst h
        obtain ⟨t, htmem, slot', hslot, hlt, ha, hu2⟩ := tryCandidates_eq_some htry
        have htT : t ∈ teachers :=
          (List.mem_filter.mp (hSub w _ t htmem)).1
        exact pairCount_commit_aux (hcap t htT) hlt ha hu2 (ih u2 tl hrec)
    · rename_i htry
      split at h
      · exact absurd h (by simp)
      · rename_i a u2 hfb
        cases hrec : feedbackLoop predict sortCands w teachers rest u2 with
        | error e => rw [hrec] at h; exact absurd h (by simp [Except.map])
        | ok tl =>
          rw [hrec] at h
          simp only [Except.map] at h
          injection h with h
          subst h
          obtain ⟨t, htmem, slot', hpt, hslot, hlt, ha, hu2⟩ := fallbackStep_eq_ok_some hfb
          exact pairCount_commit_aux (hcap t htmem) hlt ha hu2 (ih u2 tl hrec)
      · rename_i hfb
        exact ih u sched h

/-- Destructure a successful feedback-loop run into the tagged loop run. -/
theorem match_with_feedback_loop_eq_ok {predict : List String → Int}
    {sortCands : SortFn} {students : List Student} {teachers : List Teacher}
    {feedback : List FeedbackRecord} {sched : List Assignment}
    (h : match_with_feedback_loop predict sortCands students teachers feedback = .ok sched) :
    ∃ tl, feedbackLoop predict sortCands (teacher_weights feedback) teachers students
        (fun _ _ => 0) = .ok tl ∧ sched = tl.map Prod.fst := by
  rw [match_with_feedback_loop] at h
  split at h
  · exact absurd h (by simp)
  · cases hrec : feedbackLoop predict sortCands (teacher_weights feedback) teachers
        students (fun _ _ => 0) with
    | error e => rw [hrec] at h; exact absurd h (by simp [Except.map])
    | ok tl =>
      rw [hrec] at h
      simp only [Except.map] at h
      injection h with h
      exact ⟨tl, rfl, h.symm⟩

/-- Distinct teacher ids make per-id capacity well defined. -/
theorem capacity_unique {teachers : List Teacher}
    (hids : (teachers.map Teacher.teacher_id).Nodup) {t : Teacher} (ht : t ∈ teachers) :
    ∀ t' ∈ teachers, t'.teacher_id = t.teacher_id →
      t'.max_students_per_slot = t.max_students_per_slot := by
  intro t' ht' he
  have : t' = t := List.inj_on_of_nodup_map hids ht' ht he
  rw [this]

/-- **C1**: for every run of either matcher, for every teacher `t` and slot
`s`, the number of schedule entries carrying `t`'s id and `s` is at most
`t.max_students_per_slot` (teacher ids pairwise distinct, and the candidate
sort returns rows of its input, as pandas guarantees). -/
theorem C1_capacity_invariant
    (students : List Student) (teachers : List Teacher)
    (feedback : List FeedbackRecord) (predict : List String → Int)
    (sortCands : SortFn)
    (hSub : ∀ (w : Int → ℚ) (l : List Teacher), ∀ x ∈ sortCands w l, x ∈ l)
    (hids : (teachers.map Teacher.teacher_id).Nodup)
    (t : Teacher) (ht : t ∈ teachers) (slot : String) :
    pairCount (match_students_to_teachers students teachers) t.teacher_id slot
        ≤ t.max_students_per_slot ∧
    (∀ sched,
      match_with_feedback_loop predict sortCands students teachers feedback = .ok sched →
      pairCount sched t.teacher_id slot ≤ t.max_students_per_slot) := by
  have hcap := capacity_unique hids ht
  constructor
  · rcases matchLoop_pairCount teachers students (fun _ _ => 0) t.teacher_id slot
        t.max_students_per_slot hcap with h0 | hle
    · rw [match_students_to_teachers, h0]; exact Nat.zero_le _
    · rw [match_students_to_teachers]; omega
  · intro sched h
    obtain ⟨tl, htl, rfl⟩ := match_with_feedback_loop_eq_ok h
    rcases feedbackLoop_pairCount predict sortCands (teacher_weights feedback) teachers
        students hSub t.teacher_id slot t.max_students_per_slot hcap
        (fun _ _ => 0) tl htl with h0 | hle
    · rw [h0]; exact Nat.zero_le _
    · omega

/-! ## Concrete fixtures for witnesses and counterexamples -/

def stu1 : Student := ⟨1, ["Math"], ["Mon9"]⟩
def stu2 : Student := ⟨2, ["Math"], ["Mon9"]⟩
def stu3 : Student := ⟨3, ["Science"], ["Mon9"]⟩
def tea1 : Teacher := ⟨1, ["Math"], ["Mon9"], 1⟩
def tea2 : Teacher := ⟨2, ["Math"], ["Mon9"], 5⟩
def teaSci : Teacher := ⟨1, ["Science"], ["Mon9"], 1⟩

/-- Constant predictor used for concrete runs. -/
def predictOne : List String → Int := fun _ => 1

def teaM2 : Teacher := ⟨1, ["Math"], ["Mon9"], 2⟩

theorem C1_capacity_invariant_witness :
    pairCount (match_students_to_teachers [stu1, stu2] [tea1, tea2]) (1 : Int) "Mon9" ≤ 1 ∧
    pairCount [⟨1, 1, "Mon9", "1:1"⟩, ⟨2, 2, "Mon9", "1:1"⟩] (1 : Int) "Mon9" ≤ 1 := by
  have h := C1_capacity_invariant [stu1, stu2] [tea1, tea2] [] predictOne sortById
    (fun _ _ x hx => hx) (by decide) tea1 (by decide) "Mon9"
  exact ⟨h.1, h.2 [⟨1, 1, "Mon9", "1:1"⟩, ⟨2, 2, "Mon9", "1:1"⟩] rfl⟩

/-- The baseline schedule commits at most one entry per processed student,
in student order: its student-id column is a sublist of the input ids. -/
theorem matchLoop_ids_sublist (teachers : List Teacher) (students : List Student)
    (u : Usage) :
    ((matchLoop teachers students u).map Assignment.student_id).Sublist
      (students.map Student.student_id) := by
  induction students generalizing u with
  | nil => simp [matchLoop]
  | cons st rest ih =>
    cases htry : tryTeachers st teachers u with
    | none =>
      simp only [matchLoop, htry, List.map_cons]
      exact (ih u).cons _
    | some p =>
      obtain ⟨a, u2⟩ := p
      simp only [matchLoop, htry, List.map_cons]
      obtain ⟨t, _, slot', _, _, _, ha, _⟩ := tryTeachers_eq_some htry
      have hsid : a.student_id = st.student_id := by rw [ha]; rfl
      rw [hsid]
      exact (ih u2).cons₂ _

/-- Same for the feedback loop: greedy and fallback together commit at most
one entry per student. -/
theorem feedbackLoop_ids_sublist (predict : List String → Int) (sortCands : SortFn)
    (w : Int → ℚ) (teachers : List Teacher) :
    ∀ (students : List Student) (u : Usage) (sched : List (Assignment × PathTag)),
      feedbackLoop predict sortCands w teachers students u = .ok sched →
      ((sched.map Prod.fst).map Assignment.student_id).Sublist
        (students.map Student.student_id) := by
  intro students
  induction students with
  | nil =>
    intro u sched h
    simp only [feedbackLoop] at h
    injection h with h
    subst h
    simp
  | cons st rest ih =>
    intro u sched h
    rw [feedbackLoop] at h
    split at h
    · rename_i a u2 htry
      cases hrec : feedbackLoop predict sortCands w teachers rest u2 with
      | error e => rw [hrec] at h; exact absurd h (by simp [Except.map])
      | ok tl =>
        rw [hrec] at h
        simp only [Except.map] at h
        injection h with h
        subst h
        obtain ⟨t, _, slot', _, _, ha, _⟩ := tryCandidates_eq_some htry
        have hsid : a.student_id = st.student_id := by rw [ha]; rfl
        simp only [List.map_cons, hsid]
        exact (ih u2 tl hrec).cons₂ _
    · rename_i htry
      split at h
      · exact absurd h (by simp)
      · rename_i a u2 hfb
        cases hrec : feedbackLoop predict sortCands w teachers rest u2 with
        | error e => rw [hrec] at h; exact absurd h (by simp [Except.map])
        | ok tl =>
          rw [hrec] at h
          simp only [Except.map] at h
          injection h with h
          subst h
          obtain ⟨t, _, slot', _, _, _, ha, _⟩ := fallbackStep_eq_ok_some hfb
          have hsid : a.student_id = st.student_id := by rw [ha]; rfl
          simp only [List.map_cons, hsid]
          exact (ih u2 tl hrec).cons₂ _
      · rename_i hfb
        simp only [List.map_cons]
        exact ((ih u sched h).cons) _

/-- A sublist of a duplicate-free id list mentions each id at most once. -/
theorem countP_le_one_of_sublist_nodup {l1 l2 : List Int} (h : l1.Sublist l2)
    (hnd : l2.Nodup) (sid : Int) :
    l1.countP (fun x => x == sid) ≤ 1 := by
  refine le_trans (h.countP_le _) ?_
  have := List.nodup_iff_count_le_one.mp hnd sid
  simpa [List.count] using this

/-- **C3**: with pairwise-distinct student ids, no student id appears in
more than one schedule entry of either matcher. -/
theorem C3_unique_student
    (students : List Student) (teachers : List Teacher)
    (feedback : List FeedbackRecord) (predict : List String → Int)
    (sortCands : SortFn)
    (hnd : (students.map Student.student_id).Nodup) (sid : Int) :
    (match_students_to_teachers students teachers).countP
        (fun a => a.student_id == sid) ≤ 1 ∧
    (∀ sched,
      match_with_feedback_loop predict sortCands students teachers feedback = .ok sched →
      sched.countP (fun a => a.student_id == sid) ≤ 1) := by
  constructor
  · have hsub := matchLoop_ids_sublist teachers students (fun _ _ => 0)
    have := countP_le_one_of_sublist_nodup hsub hnd sid
    simpa [List.countP_map, Function.comp] using this
  · intro sched h
    obtain ⟨tl, htl, rfl⟩ := match_with_feedback_loop_eq_ok h
    have hsub := feedbackLoop_ids_sublist predict sortCands (teacher_weights feedback)
      teachers students (fun _ _ => 0) tl htl
    have := countP_le_one_of_sublist_nodup hsub hnd sid
    simpa [List.countP_map, Function.comp] using this

theorem C3_unique_student_witness :
    (match_students_to_teachers [stu1, stu2] [tea1, tea2]).countP
        (fun a => a.student_id == (1 : Int)) ≤ 1 ∧
    ([⟨1, 1, "Mon9", "1:1"⟩, ⟨2, 2, "Mon9", "1:1"⟩] : List Assignment).countP
        (fun a => a.student_id == (1 : Int)) ≤ 1 := by
  have h := C3_unique_student [stu1, stu2] [tea1, tea2] [] predictOne sortById
    (by decide) 1
  exact ⟨h.1, h.2 [⟨1, 1, "Mon9", "1:1"⟩, ⟨2, 2, "Mon9", "1:1"⟩] rfl⟩

/-- One committed entry preserves the lesson-type numbering of its
(teacher, slot) pair: the pre-increment counter decides "1:1" vs "group". -/
theorem lesson_commit_aux {u u2 : Usage} {a : Assignment} {t : Teacher}
    {sid : Int} {slot' : String} {tid : Int} {slot : String}
    {rest : List Assignment}
    (ha : a = assign_student_to_slot sid t.teacher_id slot' (u t.teacher_id slot'))
    (hu2 : u2 = bump u t.teacher_id slot')
    (ih : ∀ (i : Nat) (x : Assignment),
      (rest.filter (fun b => b.teacher_id == tid && b.time_slot == slot)).get? i = some x →
      x.lesson_type = if u2 tid slot + i = 0 then "1:1" else "group") :
    ∀ (i : Nat) (x : Assignment),
      ((a :: rest).filter (fun b => b.teacher_id == tid && b.time_slot == slot)).get? i
          = some x →
      x.lesson_type = if u tid slot + i = 0 then "1:1" else "group" := by
  intro i x hx
  by_cases hm : (a.teacher_id == tid && a.time_slot == slot) = true
  · have hm' : a.teacher_id = tid ∧ a.time_slot = slot := by simpa using hm
    have htid : t.teacher_id = tid := by rw [← hm'.1, ha]; rfl
    have hslot' : slot' = slot := by rw [← hm'.2, ha]; rfl
    have hu2v : u2 tid slot = u tid slot + 1 := by
      rw [hu2, bump_apply, htid, hslot', if_pos ⟨rfl, rfl⟩]
    have hfc : (a :: rest).filter (fun b => b.teacher_id == tid && b.time_slot == slot)
        = a :: rest.filter (fun b => b.teacher_id == tid && b.time_slot == slot) := by
      simp [List.filter_cons, hm]
    rw [hfc] at hx
    cases i with
    | zero =>
      rw [List.get?_cons_zero] at hx
      injection hx with hx
      subst hx
      rw [ha]
      show (if u t.teacher_id slot' = 0 then "1:1" else "group") = _
      rw [htid, hslot', Nat.add_zero]
    | succ j =>
      rw [List.get?_cons_succ] at hx
      have := ih j x hx
      rw [hu2v] at this
      have e : u tid slot + 1 + j = u tid slot + (j + 1) := by omega
      rw [e] at this
      exact this
  · have hne : ¬(tid = t.teacher_id ∧ slot = slot') := by
      intro ⟨e1, e2⟩
      apply hm
      have : a.teacher_id = tid ∧ a.time_slot = slot := by
        constructor
        · rw [ha, e1]; rfl
        · rw [ha, e2]; rfl
      simpa using this
    have hu2v : u2 tid slot = u tid slot := by
      rw [hu2, bump_apply, if_neg hne]
    have hfc : (a :: rest).filter (fun b => b.teacher_id == tid && b.time_slot == slot)
        = rest.filter (fun b => b.teacher_id == tid && b.time_slot == slot) := by
      simp [List.filter_cons, hm]
    rw [hfc] at hx
    have := ih i x hx
    rw [hu2v] at this
    exact this

/-- Lesson-type invariant of the baseline loop. -/
theorem matchLoop_lesson (teachers : List Teacher) (students : List Student)
    (tid : Int) (slot : String) :
    ∀ (u : Usage) (i : Nat) (x : Assignment),
      ((matchLoop teachers students u).filter
          (fun b => b.teacher_id == tid && b.time_slot == slot)).get? i = some x →
      x.lesson_type = if u tid slot + i = 0 then "1:1" else "group" := by
  induction students with
  | nil => intro u i x h; simp [matchLoop] at h
  | cons st rest ih =>
    intro u i x h
    cases htry : tryTeachers st teachers u with
    | none => simp only [matchLoop, htry] at h; exact ih u i x h
    | some p =>
      obtain ⟨a, u2⟩ := p
      simp only [matchLoop, htry] at h
      obtain ⟨t, _, slot', _, _, _, ha, hu2⟩ := tryTeachers_eq_some htry
      exact lesson_commit_aux ha hu2 (fun j y hy => ih u2 j y hy) i x h

/-- Lesson-type invariant of the feedback loop. -/
theorem feedbackLoop_lesson (predict : List String → Int) (sortCands : SortFn)
    (w : Int → ℚ) (teachers : List Teacher) (tid : Int) (slot : String) :
    ∀ (students : List Student) (u : Usage) (sched : List (Assignment × PathTag)),
      feedbackLoop predict sortCands w teachers students u = .ok sched →
      ∀ (i : Nat) (x : Assignment),
        ((sched.map Prod.fst).filter
            (fun b => b.teacher_id == tid && b.time_slot == slot)).get? i = some x →
        x.lesson_type = if u tid slot + i = 0 then "1:1" else "group" := by
  intro students
  induction students with
  | nil =>
    intro u sched h i x hx
    simp only [feedbackLoop] at h
    injection h with h
    subst h
    simp at hx
  | cons st rest ih =>
    intro u sched h i x hx
    rw [feedbackLoop] at h
    split at h
    · rename_i a u2 htry
      cases hrec : feedbackLoop predict sortCands w teachers rest u2 with
      | error e => rw [hrec] at h; exact absurd h (by simp [Except.map])
      | ok tl =>
        rw [hrec] at h
        simp only [Except.map] at h
        injection h with h
        subst h
        obtain ⟨t, _, slot', _, _, ha, hu2⟩ := tryCandidates_eq_some htry
        exact lesson_commit_aux ha hu2 (fun j y hy => ih u2 tl hrec j y hy) i x hx
    · rename_i htry
      split at h
      · exact absurd h (by simp)
      · rename_i a u2 hfb
        cases hrec : feedbackLoop predict sortCands w teachers rest u2 with
        | error e => rw [hrec] at h; exact absurd h (by simp [Except.map])
        | ok tl =>
          rw [hrec] at h
          simp only [Except.map] at h
          injection h with h
          subst h
          obtain ⟨t, _, slot', _, _, _, ha, hu2⟩ := fallbackStep_eq_ok_some hfb
          exact lesson_commit_aux ha hu2 (fun j y hy => ih u2 tl hrec j y hy) i x hx
      · rename_i hfb
        exact ih u sched h i x hx

/-- **C4**: in every run of either matcher, the first entry committed to a
given (teacher, slot) pair has lesson_type "1:1" and every later entry on
that pair has lesson_type "group". -/
theorem C4_lesson_type
    (students : List Student) (teachers : List Teacher)
    (feedback : List FeedbackRecord) (predict : List String → Int)
    (sortCands : SortFn) (tid : Int) (slot : String) (i : Nat) :
    (∀ x, ((match_students_to_teachers students teachers).filter
        (fun b => b.teacher_id == tid && b.time_slot == slot)).get? i = some x →
      x.lesson_type = if i = 0 then "1:1" else "group") ∧
    (∀ sched,
      match_with_feedback_loop predict sortCands students teachers feedback = .ok sched →
      ∀ x, (sched.filter
          (fun b => b.teacher_id == tid && b.time_slot == slot)).get? i = some x →
        x.lesson_type = if i = 0 then "1:1" else "group") := by
  constructor
  · intro x hx
    have := matchLoop_lesson teachers students tid slot (fun _ _ => 0) i x hx
    simpa using this
  · intro sched h x hx
    obtain ⟨tl, htl, rfl⟩ := match_with_feedback_loop_eq_ok h
    have := feedbackLoop_lesson predict sortCands (teacher_weights feedback) teachers
      tid slot students (fun _ _ => 0) tl htl i x hx
    simpa using this

theorem C4_lesson_type_witness :
    ((⟨2, 1, "Mon9", "group"⟩ : Assignment).lesson_type
        = if 1 = 0 then "1:1" else "group") ∧
    ((⟨1, 1, "Mon9", "1:1"⟩ : Assignment).lesson_type
        = if 0 = 0 then "1:1" else "group") := by
  constructor
  · exact (C4_lesson_type [stu1, stu2] [⟨1, ["Math"], ["Mon9"], 2⟩] [] predictOne
      sortById 1 "Mon9" 1).1 ⟨2, 1, "Mon9", "group"⟩ rfl
  · exact (C4_lesson_type [stu1, stu2] [⟨1, ["Math"], ["Mon9"], 2⟩] [] predictOne
      sortById 1 "Mon9" 0).2 [⟨1, 1, "Mon9", "1:1"⟩, ⟨2, 1, "Mon9", "group"⟩] rfl
      ⟨1, 1, "Mon9", "1:1"⟩ rfl

/-- Every baseline schedule entry comes from a processed student and a
scanned teacher with subject overlap, at a slot common to both. -/
theorem matchLoop_mem_sound {teachers : List Teacher} {students : List Student}
    {u : Usage} {a : Assignment} (h : a ∈ matchLoop teachers students u) :
    ∃ st ∈ students, ∃ t ∈ teachers,
      a.student_id = st.student_id ∧ a.teacher_id = t.teacher_id ∧
      subject_overlap st.subjects t.subjects = true ∧
      a.time_slot ∈ st.preferred_time_slots ∧
      a.time_slot ∈ t.available_time_slots := by
  induction students generalizing u with
  | nil => simp [matchLoop] at h
  | cons st rest ih =>
    cases htry : tryTeachers st teachers u with
    | none =>
      simp only [matchLoop, htry] at h
      obtain ⟨st', hst', hrest⟩ := ih h
      exact ⟨st', List.mem_cons_of_mem _ hst', hrest⟩
    | some p =>
      obtain ⟨a', u2⟩ := p
      simp only [matchLoop, htry] at h
      rcases List.mem_cons.mp h with heq | h
      · subst heq
        obtain ⟨t, htmem, slot', hov, hslot, hlt, ha, hu2⟩ := tryTeachers_eq_some htry
        have hts : a.time_slot = slot' := by rw [ha]; rfl
        have hmem2 := mem_sortedStrInter.mp hslot
        refine ⟨st, List.mem_cons_self st rest, t, htmem, ?_, ?_, hov, ?_, ?_⟩
        · rw [ha]; rfl
        · rw [ha]; rfl
        · rw [hts]; exact hmem2.1
        · rw [hts]; exact hmem2.2
      · obtain ⟨st', hst', hrest⟩ := ih h
        exact ⟨st', List.mem_cons_of_mem _ hst', hrest⟩

/-- Every feedback-loop schedule entry comes from a processed student and an
actual teacher row, at a slot common to both; entries committed on the
greedy path additionally have subject overlap. -/
theorem feedbackLoop_mem_sound (predict : List String → Int) (sortCands : SortFn)
    (w : Int → ℚ) (teachers : List Teacher)
    (hSub : ∀ (w' : Int → ℚ) (l : List Teacher), ∀ x ∈ sortCands w' l, x ∈ l) :
    ∀ (students : List Student) (u : Usage) (sched : List (Assignment × PathTag)),
      feedbackLoop predict sortCands w teachers students u = .ok sched →
      ∀ (a : Assignment) (tag : PathTag), (a, tag) ∈ sched →
      ∃ st ∈ students, ∃ t ∈ teachers,
        a.student_id = st.student_id ∧ a.teacher_id = t.teacher_id ∧
        a.time_slot ∈ st.preferred_time_slots ∧
        a.time_slot ∈ t.available_time_slots ∧
        (tag = PathTag.greedy → subject_overlap st.subjects t.subjects = true) := by
  intro students
  induction students with
  | nil =>
    intro u sched h a tag hx
    simp only [feedbackLoop] at h
    injection h with h
    subst h
    simp at hx
  | cons st rest ih =>
    intro u sched h a tag hx
    rw [feedbackLoop] at h
    split at h
    · rename_i a' u2 htry
      cases hrec : feedbackLoop predict sortCands w teachers rest u2 with
      | error e => rw [hrec] at h; exact absurd h (by simp [Except.map])
      | ok tl =>
        rw [hrec] at h
        simp only [Except.map] at h
        injection h with h
        subst h
        rcases List.mem_cons.mp hx with heq | hx
        · injection heq with heq1 heq2
          subst heq1; subst heq2
          obtain ⟨t, htmem, slot', hslot, hlt, ha, hu2⟩ := tryCandidates_eq_some htry
          have htfil := hSub w _ t htmem
          have htT := List.mem_filter.mp htfil
          have hts : a.time_slot = slot' := by rw [ha]; rfl
          have hmem2 := mem_sortedStrInter.mp hslot
          refine ⟨st, List.mem_cons_self st rest, t, htT.1, ?_, ?_, ?_, ?_, fun _ => htT.2⟩
          · rw [ha]; rfl
          · rw [ha]; rfl
          · rw [hts]; exact hmem2.1
          · rw [hts]; exact hmem2.2
        · obtain ⟨st', hst', hrest⟩ := ih u2 tl hrec a tag hx
          exact ⟨st', List.mem_cons_of_mem _ hst', hrest⟩
    · rename_i htry
      split at h
      · exact absurd h (by simp)
      · rename_i a' u2 hfb
        cases hrec : feedbackLoop predict sortCands w teachers rest u2 with
        | error e => rw [hrec] at h; exact absurd h (by simp [Except.map])
        | ok tl =>
          rw [hrec] at h
          simp only [Except.map] at h
          injection h with h
          subst h
          rcases List.mem_cons.mp hx with heq | hx
          · injection heq with heq1 heq2
            subst heq1; subst heq2
            obtain ⟨t, htmem, slot', hpt, hslot, hlt, ha, hu2⟩ := fallbackStep_eq_ok_some hfb
            have hts : a.time_slot = slot' := by rw [ha]; rfl
            have hmem2 := mem_sortedStrInter.mp hslot
            refine ⟨st, List.mem_cons_self st rest, t, htmem, ?_, ?_, ?_, ?_, ?_⟩
            · rw [ha]; rfl
            · rw [ha]; rfl
            · rw [hts]; exact hmem2.1
            · rw [hts]; exact hmem2.2
            · intro hh; exact absurd hh (by decide)
          · obtain ⟨st', hst', hrest⟩ := ih u2 tl hrec a tag hx
            exact ⟨st', List.mem_cons_of_mem _ hst', hrest⟩
      · rename_i hfb
        obtain ⟨st', hst', hrest⟩ := ih u sched h a tag hx
        exact ⟨st', List.mem_cons_of_mem _ hst', hrest⟩

/-- **C6**: every greedy-path schedule entry (all baseline entries, and the
greedy-tagged entries of the feedback loop) pairs a student and a teacher
with subject overlap, at a slot preferred by the student and available to
the teacher. -/
theorem C6_greedy_soundness
    (students : List Student) (teachers : List Teacher)
    (feedback : List FeedbackRecord) (predict : List String → Int)
    (sortCands : SortFn)
    (hSub : ∀ (w : Int → ℚ) (l : List Teacher), ∀ x ∈ sortCands w l, x ∈ l) :
    (∀ a ∈ match_students_to_teachers students teachers,
      ∃ st ∈ students, ∃ t ∈ teachers,
        a.student_id = st.student_id ∧ a.teacher_id = t.teacher_id ∧
        subject_overlap st.subjects t.subjects = true ∧
        a.time_slot ∈ st.preferred_time_slots ∧
        a.time_slot ∈ t.available_time_slots) ∧
    (∀ tl, feedbackLoop predict sortCands (teacher_weights feedback) teachers students
        (fun _ _ => 0) = .ok tl →
      ∀ a, (a, PathTag.greedy) ∈ tl →
      ∃ st ∈ students, ∃ t ∈ teachers,
        a.student_id = st.student_id ∧ a.teacher_id = t.teacher_id ∧
        subject_overlap st.subjects t.subjects = true ∧
        a.time_slot ∈ st.preferred_time_slots ∧
        a.time_slot ∈ t.available_time_slots) := by
  constructor
  · intro a ha
    exact matchLoop_mem_sound ha
  · intro tl htl a ha
    obtain ⟨st, hst, t, ht, h1, h2, h3, h4, h5⟩ :=
      feedbackLoop_mem_sound predict sortCands (teacher_weights feedback) teachers hSub
        students (fun _ _ => 0) tl htl a PathTag.greedy ha
    exact ⟨st, hst, t, ht, h1, h2, h5 rfl, h3, h4⟩

theorem C6_greedy_soundness_witness :
    (∃ st ∈ [stu1], ∃ t ∈ [tea1],
      (⟨1, 1, "Mon9", "1:1"⟩ : Assignment).student_id = st.student_id ∧
      (⟨1, 1, "Mon9", "1:1"⟩ : Assignment).teacher_id = t.teacher_id ∧
      subject_overlap st.subjects t.subjects = true ∧
      (⟨1, 1, "Mon9", "1:1"⟩ : Assignment).time_slot ∈ st.preferred_time_slots ∧
      (⟨1, 1, "Mon9", "1:1"⟩ : Assignment).time_slot ∈ t.available_time_slots) :=
  (C6_greedy_soundness [stu1] [tea1] [] predictOne sortById
    (fun _ _ x hx => hx)).1 ⟨1, 1, "Mon9", "1:1"⟩ (by decide)

/-- **C10**: in every successful feedback-loop run, every schedule entry
(greedy or fallback, the latter having no subject-overlap check) sits at a
slot preferred by its student and available to its teacher, and every
(teacher, slot) occupancy stays within capacity. -/
theorem C10_fallback_soundness
    (students : List Student) (teachers : List Teacher)
    (feedback : List FeedbackRecord) (predict : List String → Int)
    (sortCands : SortFn)
    (hSub : ∀ (w : Int → ℚ) (l : List Teacher), ∀ x ∈ sortCands w l, x ∈ l)
    (hids : (teachers.map Teacher.teacher_id).Nodup) :
    ∀ sched,
      match_with_feedback_loop predict sortCands students teachers feedback = .ok sched →
      (∀ a ∈ sched, ∃ st ∈ students, ∃ t ∈ teachers,
        a.student_id = st.student_id ∧ a.teacher_id = t.teacher_id ∧
        a.time_slot ∈ st.preferred_time_slots ∧
        a.time_slot ∈ t.available_time_slots) ∧
      (∀ t ∈ teachers, ∀ slot,
        pairCount sched t.teacher_id slot ≤ t.max_students_per_slot) := by
  intro sched h
  obtain ⟨tl, htl, rfl⟩ := match_with_feedback_loop_eq_ok h
  constructor
  · intro a ha
    obtain ⟨p, hp, hpa⟩ := List.mem_map.mp ha
    obtain ⟨a', tag⟩ := p
    subst hpa
    obtain ⟨st, hst, t, ht, h1, h2, h3, h4, _⟩ :=
      feedbackLoop_mem_sound predict sortCands (teacher_weights feedback) teachers hSub
        students (fun _ _ => 0) tl htl a' tag hp
    exact ⟨st, hst, t, ht, h1, h2, h3, h4⟩
  · intro t ht slot
    have hcap := capacity_unique hids ht
    rcases feedbackLoop_pairCount predict sortCands (teacher_weights feedback) teachers
        students hSub t.teacher_id slot t.max_students_per_slot hcap
        (fun _ _ => 0) tl htl with h0 | hle
    · rw [h0]; exact Nat.zero_le _
    · omega

theorem C10_fallback_soundness_witness :
    (∃ st ∈ [stu1, stu3], ∃ t ∈ [teaM2],
      (⟨3, 1, "Mon9", "group"⟩ : Assignment).student_id = st.student_id ∧
      (⟨3, 1, "Mon9", "group"⟩ : Assignment).teacher_id = t.teacher_id ∧
      (⟨3, 1, "Mon9", "group"⟩ : Assignment).time_slot ∈ st.preferred_time_slots ∧
      (⟨3, 1, "Mon9", "group"⟩ : Assignment).time_slot ∈ t.available_time_slots) ∧
    pairCount [⟨1, 1, "Mon9", "1:1"⟩, ⟨3, 1, "Mon9", "group"⟩] (1 : Int) "Mon9" ≤ 2 := by
  have h := C10_fallback_soundness [stu1, stu3] [teaM2] []
    predictOne sortById (fun _ _ x hx => hx) (by decide)
    [⟨1, 1, "Mon9", "1:1"⟩, ⟨3, 1, "Mon9", "group"⟩] rfl
  exact ⟨h.1 ⟨3, 1, "Mon9", "group"⟩ (by decide),
    h.2 teaM2 (by decide) "Mon9"⟩

/-- **C2** (code bug): with a training set the baseline cannot fill (no
subject overlap anywhere), the baseline returns zero assignments and
`match_with_feedback_loop` then crashes inside `train_teacher_recommender`
instead of skipping the fallback and completing. -/
theorem C2_empty_training_crash :
    match_students_to_teachers [stu1] [teaSci] = [] ∧
    match_with_feedback_loop predictOne sortById [stu1] [teaSci] [] =
      .error "KeyError: columns student_id and teacher_id not in index" :=
  ⟨rfl, rfl⟩

/-! ## C7: the baseline per-student rule -/

/-- Modelled from the spec's words for the amended C7: a teacher can serve a
student iff subjects overlap and some common slot still has free capacity. -/
def canServe (u : Usage) (st : Student) (t : Teacher) : Bool :=
  subject_overlap st.subjects t.subjects &&
    (sortedStrInter st.preferred_time_slots t.available_time_slots).any
      (fun s => u t.teacher_id s < t.max_students_per_slot)

/-- Modelled from the spec's words: commit a student to a teacher at the
first free slot of their sorted common slots (the `none` branch is
unreachable whenever `canServe` holds). -/
def commitStudent (u : Usage) (st : Student) (t : Teacher) : Assignment × Usage :=
  match (sortedStrInter st.preferred_time_slots t.available_time_slots).find?
      (fun s => u t.teacher_id s < t.max_students_per_slot) with
  | some slot =>
    (assign_student_to_slot st.student_id t.teacher_id slot (u t.teacher_id slot),
      bump u t.teacher_id slot)
  | none =>
    (assign_student_to_slot st.student_id t.teacher_id "" (u t.teacher_id ""), u)

/-- The per-student scan equals: find the first teacher that can serve the
student, and commit there. -/
theorem tryTeachers_eq_find (st : Student) (u : Usage) :
    ∀ ts : List Teacher,
      tryTeachers st ts u = (ts.find? (canServe u st)).map (commitStudent u st) := by
  intro ts
  induction ts with
  | nil => rfl
  | cons t ts ih =>
    rw [tryTeachers]
    by_cases hov : subject_overlap st.subjects t.subjects
    · rw [if_pos hov]
      cases hfind : (sortedStrInter st.preferred_time_slots t.available_time_slots).find?
          (fun s => decide (u t.teacher_id s < t.max_students_per_slot)) with
      | some slot =>
        have hcs : canServe u st t = true := by
          rw [canServe, hov, Bool.true_and, List.any_eq_true]
          refine ⟨slot, List.mem_of_find?_eq_some hfind, ?_⟩
          simpa using List.find?_some hfind
        have hfc : (t :: ts).find? (canServe u st) = some t := by
          rw [List.find?_cons, hcs]
        rw [hfc, Option.map_some', commitStudent, hfind]
      | none =>
        have hcs : canServe u st t = false := by
          rw [canServe, hov, Bool.true_and, List.any_eq_false]
          intro s hs
          have := List.find?_eq_none.mp hfind s hs
          simpa using this
        have hfc : (t :: ts).find? (canServe u st) = ts.find? (canServe u st) := by
          rw [List.find?_cons, hcs]
        rw [hfc]
        exact ih
    · have hov' : subject_overlap st.subjects t.subjects = false :=
        Bool.not_eq_true _ ▸ (by simpa using hov)
      rw [if_neg hov]
      have hcs : canServe u st t = false := by
        rw [canServe, hov', Bool.false_and]
      have hfc : (t :: ts).find? (canServe u st) = ts.find? (canServe u st) := by
        rw [List.find?_cons, hcs]
      rw [hfc]
      exact ih

/-- Modelled from the spec's words (amended C7): the whole baseline run, as
a first-servable-teacher recursion. -/
def greedySpecLoop (teachers : List Teacher) : List Student → Usage → List Assignment
  | [], _ => []
  | st :: rest, u =>
    match teachers.find? (canServe u st) with
    | some t =>
      (commitStudent u st t).1 :: greedySpecLoop teachers rest (commitStudent u st t).2
    | none => greedySpecLoop teachers rest u

/-- Modelled from the spec's words (amended C7): top level of the above. -/
def greedySpecMatch (students : List Student) (teachers : List Teacher) :
    List Assignment :=
  greedySpecLoop teachers students (fun _ _ => 0)

theorem matchLoop_eq_specLoop (teachers : List Teacher) :
    ∀ (students : List Student) (u : Usage),
      matchLoop teachers students u = greedySpecLoop teachers students u := by
  intro students
  induction students with
  | nil => intro u; rfl
  | cons st rest ih =>
    intro u
    rw [matchLoop, greedySpecLoop, tryTeachers_eq_find st u teachers]
    cases hfind : teachers.find? (canServe u st) with
    | none =>
      simp only [Option.map_none']
      exact ih u
    | some t =>
      rcases hc : commitStudent u st t with ⟨a, u2⟩
      simp only [Option.map_some', hc]
      rw [ih u2]

/-- **C7 (amended)**: in the baseline matcher each student, in input order,
is assigned by finding the first teacher in input order that has subject
overlap AND a free common slot, committing at the first such slot in
sorted order; teachers whose common slots are all full are skipped, and no
further teachers are scanned after a commit. -/
theorem C7_first_servable_teacher (students : List Student) (teachers : List Teacher) :
    match_students_to_teachers students teachers = greedySpecMatch students teachers := by
  rw [match_students_to_teachers, greedySpecMatch]
  exact matchLoop_eq_specLoop teachers students (fun _ _ => 0)

/-- C7 exactly as stated: every schedule entry names the first teacher in
input order that merely has subject overlap with its student. -/
def C7Stated : Prop :=
  ∀ (students : List Student) (teachers : List Teacher) (a : Assignment)
    (st : Student),
    a ∈ match_students_to_teachers students teachers →
    st ∈ students → a.student_id = st.student_id →
    ∃ t, teachers.find? (fun t => subject_overlap st.subjects t.subjects) = some t ∧
      a.teacher_id = t.teacher_id

/-- **C7 counterexample**: with teacher 1 (capacity 1) filled by the first
student, the second student is assigned to teacher 2 although teacher 1 is
the first subject-overlapping teacher in input order. -/
theorem C7_counterexample : ¬ C7Stated := by
  intro h
  obtain ⟨t, hfind, hid⟩ :=
    h [stu1, stu2] [tea1, tea2] ⟨2, 2, "Mon9", "1:1"⟩ stu2
      (by decide) (by decide) (by decide)
  have ht : t = tea1 := by
    have h2 : ([tea1, tea2].find?
        (fun t => subject_overlap stu2.subjects t.subjects)) = some tea1 := rfl
    rw [h2] at hfind
    injection hfind with hf
    exact hf.symm
  subst ht
  exact absurd hid (by decide)

/-! ## C5: candidate ordering by feedback weight

`sort_values("weight", ascending=False)` with the default
`kind=quicksort` guarantees a permutation of the candidate rows that is
sorted by weight in descending order, and nothing about the relative order
of rows with equal weight (quicksort is not a stable sort).  `WeightSortValid`
captures exactly that contract. -/

/-- The pandas contract for the candidate sort: a weight-descending
permutation of the input rows. -/
def WeightSortValid (sortCands : SortFn) : Prop :=
  ∀ (w : Int → ℚ) (l : List Teacher),
    (sortCands w l).Perm l ∧
    (sortCands w l).Sorted (fun a b => w b.teacher_id ≤ w a.teacher_id)

/-- A sort admissible under the pandas contract that reverses ties (as the
argsort-then-reverse implementation of a descending sort does). -/
def swapTieSort : SortFn := fun w l =>
  List.insertionSort (fun a b => w b.teacher_id ≤ w a.teacher_id) l.reverse

/-- A stable descending sort, also admissible under the pandas contract. -/
def descWeightSort : SortFn := fun w l =>
  List.insertionSort (fun a b => w b.teacher_id ≤ w a.teacher_id) l

theorem swapTieSort_valid : WeightSortValid swapTieSort := by
  intro w l
  constructor
  · exact (List.perm_insertionSort _ _).trans (List.reverse_perm l)
  · haveI h1 : IsTotal Teacher (fun a b => w b.teacher_id ≤ w a.teacher_id) :=
      ⟨fun a b => le_total _ _⟩
    haveI h2 : IsTrans Teacher (fun a b => w b.teacher_id ≤ w a.teacher_id) :=
      ⟨fun a b c hab hbc => le_trans hbc hab⟩
    exact List.sorted_insertionSort _ _

theorem descWeightSort_valid : WeightSortValid descWeightSort := by
  intro w l
  constructor
  · exact List.perm_insertionSort _ _
  · haveI h1 : IsTotal Teacher (fun a b => w b.teacher_id ≤ w a.teacher_id) :=
      ⟨fun a b => le_total _ _⟩
    haveI h2 : IsTrans Teacher (fun a b => w b.teacher_id ≤ w a.teacher_id) :=
      ⟨fun a b c hab hbc => le_trans hbc hab⟩
    exact List.sorted_insertionSort _ _

/-- In a weight-descending list, a strictly heavier element sits strictly
earlier. -/
theorem indexOf_lt_of_heavier {l : List Teacher} {w : Int → ℚ}
    (hs : l.Sorted (fun a b => w b.teacher_id ≤ w a.teacher_id))
    {t1 t2 : Teacher} (h1 : t1 ∈ l) (h2 : t2 ∈ l)
    (hw : w t2.teacher_id < w t1.teacher_id) :
    l.indexOf t1 < l.indexOf t2 := by
  by_contra hle
  push_neg at hle
  have hne : t1 ≠ t2 := by
    intro he
    rw [he] at hw
    exact lt_irrefl _ hw
  have hi1 : l.indexOf t1 < l.length := List.indexOf_lt_length.mpr h1
  have hi2 : l.indexOf t2 < l.length := List.indexOf_lt_length.mpr h2
  have hlt : l.indexOf t2 < l.indexOf t1 := by
    rcases Nat.lt_or_ge (l.indexOf t2) (l.indexOf t1) with h | h
    · exact h
    · exfalso
      have heq : l.indexOf t1 = l.indexOf t2 := le_antisymm h hle
      apply hne
      have e1 := List.indexOf_get hi1
      have e2 := List.indexOf_get hi2
      rw [← e1, ← e2]
      congr 1
      exact Fin.ext heq
  have hrel := List.pairwise_iff_get.mp hs ⟨l.indexOf t2, hi2⟩ ⟨l.indexOf t1, hi1⟩ hlt
  rw [List.indexOf_get hi1, List.indexOf_get hi2] at hrel
  exact absurd hw (not_lt.mpr hrel)

/-- **C5 (amended)**: under the pandas sort contract, the candidate scan
order of `match_with_feedback_loop` puts a strictly higher-weighted
subject-overlapping teacher before any lower-weighted one (tie order among
equal weights is not specified by the unstable sort). -/
theorem C5_weight_monotonic
    (sortCands : SortFn) (hvalid : WeightSortValid sortCands)
    (w : Int → ℚ) (st : Student) (teachers : List Teacher) (t1 t2 : Teacher)
    (ht1 : t1 ∈ teachers) (ht2 : t2 ∈ teachers)
    (hov1 : subject_overlap st.subjects t1.subjects = true)
    (hov2 : subject_overlap st.subjects t2.subjects = true)
    (hw : w t2.teacher_id < w t1.teacher_id) :
    (candidate_order sortCands w st teachers).indexOf t1 <
      (candidate_order sortCands w st teachers).indexOf t2 := by
  have hperm := (hvalid w (teachers.filter
    (fun t => subject_overlap st.subjects t.subjects))).1
  have hsorted := (hvalid w (teachers.filter
    (fun t => subject_overlap st.subjects t.subjects))).2
  have h1 : t1 ∈ candidate_order sortCands w st teachers := by
    rw [candidate_order, hperm.mem_iff, List.mem_filter]
    exact ⟨ht1, hov1⟩
  have h2 : t2 ∈ candidate_order sortCands w st teachers := by
    rw [candidate_order, hperm.mem_iff, List.mem_filter]
    exact ⟨ht2, hov2⟩
  exact indexOf_lt_of_heavier hsorted h1 h2 hw

theorem C5_weight_monotonic_witness :
    (candidate_order descWeightSort (teacher_weights [⟨1, 1, "Mon9", 2⟩]) stu1
        [tea1, tea2]).indexOf tea2 <
      (candidate_order descWeightSort (teacher_weights [⟨1, 1, "Mon9", 2⟩]) stu1
        [tea1, tea2]).indexOf tea1 :=
  C5_weight_monotonic descWeightSort descWeightSort_valid
    (teacher_weights [⟨1, 1, "Mon9", 2⟩]) stu1 [tea1, tea2] tea2 tea1
    (by decide) (by decide) (by decide) (by decide)
    (by norm_num [teacher_weights, tea1, tea2])

/-- C5's stability clause exactly as stated: under any sort admissible for
the pandas call, candidates of equal weight keep their teacher input
order. -/
def C5Stated : Prop :=
  ∀ sortCands : SortFn, WeightSortValid sortCands →
    ∀ (w : Int → ℚ) (st : Student) (teachers : List Teacher) (t1 t2 : Teacher),
      t1 ∈ teachers.filter (fun t => subject_overlap st.subjects t.subjects) →
      t2 ∈ teachers.filter (fun t => subject_overlap st.subjects t.subjects) →
      w t1.teacher_id = w t2.teacher_id →
      (teachers.filter (fun t => subject_overlap st.subjects t.subjects)).indexOf t1 <
        (teachers.filter (fun t => subject_overlap st.subjects t.subjects)).indexOf t2 →
      (candidate_order sortCands w st teachers).indexOf t1 <
        (candidate_order sortCands w st teachers).indexOf t2

/-- **C5 counterexample**: the tie-reversing sort satisfies the pandas
contract, yet on two equal-weight teachers it scans teacher 2 before
teacher 1, breaking the claimed input-order tie rule. -/
theorem C5_counterexample : ¬ C5Stated := by
  intro h
  have := h swapTieSort swapTieSort_valid (teacher_weights []) stu1 [tea1, tea2]
    tea1 tea2 (by decide) (by decide) (by decide) (by decide)
  exact absurd this (by decide)

/-! ## C8: the time-overlap utility contract -/

/-- `isinstance(v, list)`. -/
def PyVal.isList : PyVal → Bool
  | .list _ => true
  | _ => false

theorem filterMap_asStr_map (l : List String) :
    (l.map PyVal.str).filterMap PyVal.asStr = l := by
  induction l with
  | nil => rfl
  | cons s rest ih => simp [List.filterMap_cons, PyVal.asStr, ih]

theorem all_isStr_map (l : List String) : (l.map PyVal.str).all PyVal.isStr = true := by
  rw [List.all_eq_true]
  intro x hx
  obtain ⟨s, _, rfl⟩ := List.mem_map.mp hx
  rfl

/-- **C8**: on two string lists, `available_time_overlap` returns exactly
the lexicographically sorted intersection (strictly sorted, one occurrence
per common element, empty when the intersection is empty, never an error);
when either argument is not a list, or a list element is not a string, it
raises `TypeError`. -/
theorem C8_time_overlap_contract :
    (∀ a b : List String,
      available_time_overlap (toPyList a) (toPyList b) = .ok (sortedStrInter a b) ∧
      (sortedStrInter a b).Sorted (· < ·) ∧
      (∀ s : String, s ∈ sortedStrInter a b ↔ s ∈ a ∧ s ∈ b) ∧
      ((∀ s ∈ a, s ∉ b) → sortedStrInter a b = [])) ∧
    (∀ x y : PyVal, x.isList = false ∨ y.isList = false →
      available_time_overlap x y =
        .error "Both student_times and teacher_times must be lists") ∧
    (∀ xs ys : List PyVal, (xs ++ ys).all PyVal.isStr = false →
      available_time_overlap (.list xs) (.list ys) =
        .error "All elements in time lists must be strings") := by
  refine ⟨?_, ?_, ?_⟩
  · intro a b
    refine ⟨?_, sortedStrInter_sorted_lt a b, fun s => mem_sortedStrInter, ?_⟩
    · rw [toPyList, toPyList, available_time_overlap]
      have hall : ((a.map PyVal.str ++ b.map PyVal.str).all PyVal.isStr) = true := by
        rw [List.all_append, all_isStr_map, all_isStr_map]
        rfl
      rw [if_pos hall, filterMap_asStr_map, filterMap_asStr_map]
    · intro hdisj
      rcases hnil : sortedStrInter a b with _ | ⟨s, rest⟩
      · rfl
      · exfalso
        have hs : s ∈ sortedStrInter a b := by rw [hnil]; exact List.mem_cons_self _ _
        have := mem_sortedStrInter.mp hs
        exact hdisj s this.1 this.2
  · intro x y h
    cases x <;> cases y <;> first
      | rfl
      | (exact absurd h (by simp [PyVal.isList]))
  · intro xs ys h
    rw [available_time_overlap, if_neg]
    rw [h]
    exact Bool.false_ne_true

theorem C8_time_overlap_contract_witness :
    available_time_overlap (toPyList ["Tue10", "Mon9", "Mon9"]) (toPyList ["Mon9", "Wed11"])
        = .ok ["Mon9"] ∧
    available_time_overlap (.int 3) (toPyList ["Mon9"]) =
      .error "Both student_times and teacher_times must be lists" ∧
    available_time_overlap (.list [.int 1]) (.list []) =
      .error "All elements in time lists must be strings" := by
  refine ⟨?_, ?_, ?_⟩
  · have h := (C8_time_overlap_contract.1 ["Tue10", "Mon9", "Mon9"] ["Mon9", "Wed11"]).1
    rw [h]
    rfl
  · exact C8_time_overlap_contract.2.1 (.int 3) (toPyList ["Mon9"]) (Or.inl rfl)
  · exact C8_time_overlap_contract.2.2 [.int 1] [] rfl
